import Mathlib

/-!
Verification development for the runtime core of `ramiro/textual`: a shallow
embedding, in Lean 4, of the application orchestrator (`src/textual/app.py`)
and of the dock layout engine (`src/textual/layouts/dock.py`), together with
theorems checking the natural-language specification against these
definitions.

Modelling conventions:
* Python widget objects, as handled by the orchestrator, are identified by
  `Nat` ids; Python object identity and `==` on widgets become equality of
  ids.  Attributes the orchestrator reads (`can_focus`) are supplied as a
  function from ids.
* `await x.post_message(e)` / `await x.forward_event(e)` are observable
  effects: each function of the embedding returns, next to its result, the
  ordered list of the effects it performs.  Assignments to orchestrator
  state that the claims order against message posts are also recorded in
  these traces.
* Python strings are embedded as `List Char`, so that `str.split` and
  `str.strip` can be mirrored exactly by structural recursion.
* Fallible notification handlers are modelled by a Boolean oracle saying
  which deliveries raise; `try/finally` becomes an explicit case split that
  commits the state in every branch.
-/

/-! ## Key bindings (`App.bind`, `textual/keys.py`) -/

/-- A key binding: `Binding(action, description)` from `textual.keys`
(declared outside `src/`; the orchestrator only constructs and reads its two
fields). -/
structure Binding where
  action : List Char
  description : List Char
deriving DecidableEq

/-- Python whitespace as recognised by `str.strip()` (ASCII range). -/
def isPySpace (c : Char) : Bool :=
  c = ' ' || c = '\t' || c = '\n' || c = '\r' || c = '\x0b' || c = '\x0c'

/-- `keys.split(",")` on a Python string: split on every comma, keeping empty
pieces, as Python does. -/
def splitComma : List Char → List (List Char)
  | [] => [[]]
  | c :: rest =>
    if c = ',' then [] :: splitComma rest
    else
      match splitComma rest with
      | s :: ss => (c :: s) :: ss
      | [] => [[c]]

/-- `key.strip()`: drop leading and trailing whitespace. -/
def trimChars (s : List Char) : List Char :=
  ((s.dropWhile isPySpace).reverse.dropWhile isPySpace).reverse

/-- One assignment `self._bindings[key] = b` on the bindings dict, modelled
as a pointwise update of the lookup function. -/
def updateBinding (m : List Char → Option Binding) (key : List Char) (b : Binding) :
    List Char → Option Binding :=
  fun k => if k = key then some b else m k

/-- `App.bind(keys, action, description)`: split `keys` on commas, strip each
piece, and store the same `Binding(action, description)` under every
resulting key. -/
def bind (m : List Char → Option Binding) (keys action description : List Char) :
    List Char → Option Binding :=
  let all_keys := (splitComma keys).map trimChars
  all_keys.foldl (fun m key => updateBinding m key (Binding.mk action description)) m

/-! ## Focus state machine (`App.set_focus`) -/

/-- Observable steps of `set_focus`: a `Blur`/`Focus` message posted to a
widget, or an assignment to `self.focused`. -/
inductive FocusEv where
  | blur (w : Nat)
  | focus (w : Nat)
  | setRef (w : Option Nat)
deriving DecidableEq

/-- `App.set_focus(widget)`, a function of the current `self.focused`
reference.  `cf w` is `w.can_focus`.  Returns the new `self.focused`
together with the ordered trace of message posts and reference assignments,
exactly as the Python body performs them. -/
def set_focus (cf : Nat → Bool) (widget : Option Nat) (focused : Option Nat) :
    Option Nat × List FocusEv :=
  if widget = focused then (focused, [])
  else
    match widget with
    | none =>
      match focused with
      | some f => (none, [FocusEv.setRef none, FocusEv.blur f])
      | none => (focused, [])
    | some w =>
      if cf w then
        let blurEvs :=
          match focused with
          | some f => [FocusEv.blur f]
          | none => []
        if focused ≠ some w then
          (some w, blurEvs ++ [FocusEv.setRef (some w), FocusEv.focus w])
        else (focused, blurEvs)
      else (focused, [])

/-- Run a sequence of `set_focus` calls from a given state, concatenating
their traces. -/
def runSetFocus (cf : Nat → Bool) : List (Option Nat) → Option Nat →
    Option Nat × List FocusEv
  | [], st => (st, [])
  | c :: cs, st =>
    match set_focus cf c st with
    | (st', evs) =>
      match runSetFocus cf cs st' with
      | (st'', evs') => (st'', evs ++ evs')

/-- Is this trace entry a `Focus` message? -/
def isFocusEv : FocusEv → Bool
  | .focus _ => true
  | _ => false

/-- Is this trace entry an actual message post (as opposed to a reference
assignment)? -/
def isPostEv : FocusEv → Bool
  | .setRef _ => false
  | _ => true

/-- The messages actually posted in a trace (assignments removed). -/
def msgsOf (t : List FocusEv) : List FocusEv := t.filter isPostEv

/-- `noFFFrom p t`: scanning `t`, no `Focus` immediately follows a `Focus`;
`p` records whether the element just before `t` was a `Focus`. -/
def noFFFrom (p : Bool) : List FocusEv → Bool
  | [] => true
  | e :: rest => (!(p && isFocusEv e)) && noFFFrom (isFocusEv e) rest

/-- No two consecutive `Focus` entries in the list. -/
def noFF (t : List FocusEv) : Bool := noFFFrom false t

/-- Whether the last element of the list is a `Focus` (`p` if empty). -/
def lastIsFocus (p : Bool) : List FocusEv → Bool
  | [] => p
  | e :: rest => lastIsFocus (isFocusEv e) rest

/-! ## Pointer-over state machine (`App.set_mouse_over`) -/

/-- Notifications delivered by `set_mouse_over`. -/
inductive MouseEv where
  | leave (w : Nat)
  | enter (w : Nat)
deriving DecidableEq

/-- `App.set_mouse_over(widget)`, a function of the current
`self.mouse_over` reference.  `raises e` says whether delivering
notification `e` raises inside the handler.  Returns the new
`self.mouse_over`, the ordered list of notifications attempted, and whether
an exception escaped.  The `try/finally` of the source is mirrored: the
state assignment in `finally` happens on every path, and a `Leave` that
raises prevents the subsequent `Enter` from being attempted. -/
def set_mouse_over (raises : MouseEv → Bool) (widget : Option Nat)
    (mouse_over : Option Nat) : Option Nat × List MouseEv × Bool :=
  match widget with
  | none =>
    match mouse_over with
    | some m => (none, [MouseEv.leave m], raises (MouseEv.leave m))
    | none => (mouse_over, [], false)
  | some w =>
    if mouse_over ≠ some w then
      match mouse_over with
      | some m =>
        if raises (MouseEv.leave m) then (some w, [MouseEv.leave m], true)
        else (some w, [MouseEv.leave m, MouseEv.enter w], raises (MouseEv.enter w))
      | none => (some w, [MouseEv.enter w], raises (MouseEv.enter w))
    else (mouse_over, [], false)

/-! ## Event routing (`App.on_event`) -/

/-- The shapes of events reaching `App.on_event`: a `Key` with its key
string, some other `InputEvent` (mouse events), or a non-input event. -/
inductive AppEvent where
  | key (k : List Char)
  | inputNonKey
  | other
deriving DecidableEq

/-- Observable routing decisions of `App.on_event`. -/
inductive RouteEv where
  | dispatchAction (a : List Char)
  | toFocused (w : Nat)
  | toView
  | toSelf
deriving DecidableEq

/-- `App.on_event(event)`: for a `Key`, look the key string up in
`self._bindings`; if bound, perform the bound action and stop.  Otherwise
(for every `InputEvent`) forward a `Key` to the focused widget when there is
one, then forward to the active view.  Non-input events go to the default
`MessagePump` handling (`toSelf`). -/
def on_event (bindings : List Char → Option Binding) (focused : Option Nat)
    (ev : AppEvent) : List RouteEv :=
  match ev with
  | .key k =>
    match bindings k with
    | some binding => [RouteEv.dispatchAction binding.action]
    | none =>
      (match focused with
       | some f => [RouteEv.toFocused f]
       | none => []) ++ [RouteEv.toView]
  | .inputNonKey => [RouteEv.toView]
  | .other => [RouteEv.toSelf]

/-! ## Action dispatch (`App.action`, `App.dispatch_action`) -/

/-- The objects an action can target: `getattr(self, "app")`,
`getattr(self, "view")`, or the default namespace (`default_namespace or
self`). -/
inductive ActionTarget where
  | app
  | view
  | defaultNs
deriving DecidableEq

/-- An invocation of a resolved `action_<name>` handler. -/
inductive DispatchEv where
  | invoke (ns : ActionTarget) (name : List Char) (params : List (List Char))
deriving DecidableEq

/-- Modelled from the spec: `actions.parse` (module `textual.actions`, not
under `src/`) parses the grammar `[namespace.]name [param, ...]` into a
target path and positional parameters.  Here: the target is everything
before the first space, the remainder is split on commas and stripped to
give the parameters. -/
def parse (action : List Char) : List Char × List (List Char) :=
  let target := action.takeWhile (fun c => c ≠ ' ')
  let rest := (action.dropWhile (fun c => c ≠ ' ')).drop 1
  let params := if rest = [] then [] else (splitComma rest).map trimChars
  (target, params)

/-- `self._action_targets = {"app", "view"}`. -/
def action_targets : List (List Char) := ["app".toList, "view".toList]

/-- `App.dispatch_action(namespace, action_name, params)`:
`getattr(namespace, "action_" + action_name, None)` is modelled by the
predicate `hasMethod`; if the method exists it is invoked (recorded as a
trace event), otherwise nothing happens.  The function itself cannot fail. -/
def dispatch_action (hasMethod : ActionTarget → List Char → Bool)
    (ns : ActionTarget) (action_name : List Char) (params : List (List Char)) :
    List DispatchEv :=
  if hasMethod ns action_name then [DispatchEv.invoke ns action_name params]
  else []

/-- `App.action(action, default_namespace)`: parse the action string; if the
target contains a `.`, the prefix before the first `.` must be a registered
namespace or `ActionError` is raised; otherwise the default namespace is the
target and — as in the source — the *whole original action string* is used
as the action name.  Errors are the `Except.error` case. -/
def action (hasMethod : ActionTarget → List Char → Bool)
    (default_namespace : Option ActionTarget) (actionStr : List Char) :
    Except Unit (List DispatchEv) :=
  let parsed := parse actionStr
  let target := parsed.1
  let params := parsed.2
  if '.' ∈ target then
    let destination := target.takeWhile (fun c => c ≠ '.')
    let action_name := (target.dropWhile (fun c => c ≠ '.')).drop 1
    if destination ∈ action_targets then
      let action_target :=
        if destination = "app".toList then ActionTarget.app else ActionTarget.view
      Except.ok (dispatch_action hasMethod action_target action_name params)
    else Except.error ()
  else
    let action_target := default_namespace.getD ActionTarget.defaultNs
    Except.ok (dispatch_action hasMethod action_target actionStr params)

/-! ## Top-level lifecycle (`App.process_messages`) -/

/-- Observable milestones of `App.process_messages`, in source order. -/
inductive LifeEv where
  | registerView
  | postStartup
  | enterAppMode
  | logStartError
  | animatorStart
  | runLoop
  | captureTraceback
  | animatorStop
  | closeView
  | exitAppMode
  | printTraceback
deriving DecidableEq

/-- `App.process_messages()` as a trace of milestones.  `startFails` says
whether `driver.start_application_mode()` raises; `loopFails` whether an
exception escapes the inherited message loop.  The source catches a loop
exception into a `Traceback`, always runs the three teardown steps, and only
then prints the captured traceback. -/
def process_messages (startFails loopFails : Bool) : List LifeEv :=
  [LifeEv.registerView, LifeEv.postStartup, LifeEv.enterAppMode] ++
    (if startFails then [LifeEv.logStartError]
     else
       [LifeEv.animatorStart, LifeEv.runLoop] ++
         (if loopFails then [LifeEv.captureTraceback] else []) ++
         [LifeEv.animatorStop, LifeEv.closeView, LifeEv.exitAppMode] ++
         (if loopFails then [LifeEv.printTraceback] else []))

/-! ## View stack (`App.__init__`, `App.push_view`, `App.view`) -/

/-- `self._view_stack = [View()]`: the initial stack holds one view (id 0). -/
def init_view_stack : List Nat := [0]

/-- `App.push_view(view)`: `self._view_stack[0] = view` — overwrite index 0,
never append. -/
def push_view (stack : List Nat) (v : Nat) : List Nat := stack.set 0 v

/-- `App.view`: `self._view_stack[-1]`, the last element. -/
def active_view (stack : List Nat) : Option Nat := stack.getLast?

/-! ## Geometry (`textual/geometry.py`, declared outside `src/`) -/

/-- Modelled from the spec: `Point` from `textual.geometry` (not under
`src/`) — a value-type pair of terminal cell coordinates. -/
structure Point where
  x : Int
  y : Int
deriving DecidableEq

/-- Modelled from the spec: `Region` from `textual.geometry` (not under
`src/`) — a rectangle `(x, y, width, height)` in terminal cell coordinates,
a value type. -/
structure Region where
  x : Int
  y : Int
  width : Int
  height : Int
deriving DecidableEq

/-- Modelled from the spec: Python truthiness of a `Region` — the region is
non-empty when both dimensions are non-zero (`if not region: continue` skips
a dock whose layer's remaining region is empty). -/
def Region.nonEmpty (r : Region) : Bool := r.width ≠ 0 && r.height ≠ 0

/-- Modelled from the spec: `region + point` translates the region's origin
by the point, leaving its dimensions unchanged. -/
def Region.addPoint (r : Region) (p : Point) : Region :=
  Region.mk (r.x + p.x) (r.y + p.y) r.width r.height

/-- `region.origin`: the top-left corner as a `Point`. -/
def Region.origin (r : Region) : Point := Point.mk r.x r.y

/-! ## Dock declarations (`textual/layouts/dock.py`) -/

/-- `DockEdge = Literal["top", "right", "bottom", "left"]`. -/
inductive DockEdge where
  | top
  | right
  | bottom
  | left
deriving DecidableEq

/-- `DockOptions`: per-widget layout hints read at layout time.  Sizes are
modelled as natural numbers (cell counts). -/
structure DockOptions where
  size : Option Nat
  fraction : Nat
  minimum_size : Nat
deriving DecidableEq

/-! The widget tree as the layout engine sees it.  A `Widget` carries the
attributes `generate_map` reads (`visible`, `layout_size`,
`layout_fraction`, `layout_minimim_size` (sic), `layout_offset`) and, when
it is a `View` hosting its own `DockLayout`, the list of its sub-docks
(`widget.layout.docks`).  A `Dock` is `Dock(edge, widgets, z)` from the
source. -/
mutual
inductive Widget where
  | mk (id : Nat) (visible : Bool) (layout_size : Option Nat)
      (layout_fraction : Nat) (layout_minimim_size : Nat)
      (layout_offset : Point) (view_docks : Option (List Dock)) : Widget
inductive Dock where
  | mk (edge : DockEdge) (widgets : List Widget) (z : Int) : Dock
end

def Widget.id : Widget → Nat
  | .mk i _ _ _ _ _ _ => i

def Widget.visible : Widget → Bool
  | .mk _ v _ _ _ _ _ => v

def Widget.layout_size : Widget → Option Nat
  | .mk _ _ s _ _ _ _ => s

def Widget.layout_fraction : Widget → Nat
  | .mk _ _ _ f _ _ _ => f

def Widget.layout_minimim_size : Widget → Nat
  | .mk _ _ _ _ m _ _ => m

def Widget.layout_offset : Widget → Point
  | .mk _ _ _ _ _ o _ => o

def Widget.view_docks : Widget → Option (List Dock)
  | .mk _ _ _ _ _ _ d => d

def Dock.edge : Dock → DockEdge
  | .mk e _ _ => e

def Dock.widgets : Dock → List Widget
  | .mk _ ws _ => ws

def Dock.z : Dock → Int
  | .mk _ _ z => z

/-- `MapRegion(region, order)`: an absolute region plus the paint order
`(z, index-within-dock-list)`. -/
structure MapRegion where
  region : Region
  order : Int × Nat
deriving DecidableEq

/-! ## Size resolution (`rich._ratio.ratio_resolve`, external library) -/

/-- Modelled from the spec: `ratio_resolve` from the external `rich`
library, an out-of-scope collaborator — resolve each node's extent along the
dock's axis by weighted distribution of the axis extent among the dock's
nodes, honoring any fixed-size override and a minimum-size floor.  A node
with a fixed size receives it; the remaining extent is shared among flexible
nodes in proportion to their fractions, floored at their minimum size. -/
def ratio_resolve (total : Nat) (edges : List DockOptions) : List Nat :=
  let fixed := (edges.filterMap (fun e => e.size)).foldl (· + ·) 0
  let remaining := total - fixed
  let flexTotal := edges.foldl (fun a e => if e.size.isNone then a + e.fraction else a) 0
  edges.map fun e =>
    match e.size with
    | some s => s
    | none =>
      max e.minimum_size (if flexTotal = 0 then 0 else remaining * e.fraction / flexTotal)

/-! ## The layout algorithm (`DockLayout.generate_map`) -/

/-- The per-dock placement loop shared by the four edge branches of
`generate_map`: walk `widgets` zipped with their resolved `sizes`, skip
invisible widgets (`continue`), clamp each size to the remaining capacity
(`size = min(remaining, size)`), stop the whole walk when a clamped size is
zero (`if not size: break`), and otherwise emit the widget via `addW`
applied to the edge-specific rectangle `mkRegion cursor size` and advance
`remaining = max(0, remaining - size)` and the placement cursor.  Returns
the emitted map entries and the consumed `total`. -/
def genWidgets (addW : Widget → Region → List (Widget × MapRegion))
    (mkRegion : Int → Int → Region) :
    List Widget → List Int → Int → Int → List (Widget × MapRegion) × Int
  | [], _, _, _ => ([], 0)
  | _ :: _, [], _, _ => ([], 0)
  | w :: ws, size :: sizes, remaining, cursor =>
    if w.visible = false then genWidgets addW mkRegion ws sizes remaining cursor
    else
      let size := min remaining size
      if size = 0 then ([], 0)
      else
        let rest := genWidgets addW mkRegion ws sizes (max 0 (remaining - size)) (cursor + size)
        (addW w (mkRegion cursor size) ++ rest.1, size + rest.2)

/-- Processing of one dock against its layer's remaining region: skip the
dock entirely when the region is empty, otherwise build the `DockOptions`
from the widgets, resolve sizes along the dock's axis, run the placement
walk, and return the map entries together with the layer's new remaining
region, shrunk by the consumed total on the docked axis only. -/
def dockStep (addW : Widget → Region → Int × Nat → List (Widget × MapRegion))
    (dock : Dock) (region : Region) (index : Nat) :
    List (Widget × MapRegion) × Region :=
  if region.nonEmpty = false then ([], region)
  else
    let dock_options := dock.widgets.map fun w =>
      DockOptions.mk w.layout_size w.layout_fraction w.layout_minimim_size
    let order : Int × Nat := (dock.z, index)
    let x := region.x
    let y := region.y
    let width := region.width
    let height := region.height
    match dock.edge with
    | DockEdge.top =>
      let sizes := (ratio_resolve height.toNat dock_options).map Int.ofNat
      let res := genWidgets (fun w r => addW w r order)
        (fun cursor size => Region.mk x (y + cursor) width size)
        dock.widgets sizes height 0
      (res.1, Region.mk x (y + res.2) width (height - res.2))
    | DockEdge.bottom =>
      let sizes := (ratio_resolve height.toNat dock_options).map Int.ofNat
      let res := genWidgets (fun w r => addW w r order)
        (fun cursor size => Region.mk x (y + height - cursor - size) width size)
        dock.widgets sizes height 0
      (res.1, Region.mk x y width (height - res.2))
    | DockEdge.left =>
      let sizes := (ratio_resolve width.toNat dock_options).map Int.ofNat
      let res := genWidgets (fun w r => addW w r order)
        (fun cursor size => Region.mk (x + cursor) y size height)
        dock.widgets sizes width 0
      (res.1, Region.mk (x + res.2) y (width - res.2) height)
    | DockEdge.right =>
      let sizes := (ratio_resolve width.toNat dock_options).map Int.ofNat
      let res := genWidgets (fun w r => addW w r order)
        (fun cursor size => Region.mk (x + width - cursor - size) y size height)
        dock.widgets sizes width 0
      (res.1, Region.mk x y (width - res.2) height)

/-- `layers[dock.z] = region`: pointwise update of the per-layer remaining
regions. -/
def updateLayers (layers : Int → Region) (z : Int) (r : Region) : Int → Region :=
  fun z' => if z' = z then r else layers z'

/-- One iteration of the `for index, dock in enumerate(self.docks)` loop:
process the dock against its own layer's remaining region and write the
shrunk region back to that layer only. -/
def genDocksStep (addW : Widget → Region → Int × Nat → List (Widget × MapRegion))
    (dock : Dock) (index : Nat) (layers : Int → Region) :
    List (Widget × MapRegion) × (Int → Region) :=
  let res := dockStep addW dock (layers dock.z) index
  (res.1, updateLayers layers dock.z res.2)

/-- The dock loop of `generate_map`, in declaration order, threading the
per-layer remaining regions. -/
def genDocks (addW : Widget → Region → Int × Nat → List (Widget × MapRegion)) :
    List Dock → Nat → (Int → Region) → List (Widget × MapRegion)
  | [], _, _ => []
  | dock :: rest, index, layers =>
    match genDocksStep addW dock index layers with
    | (entries, layers') => entries ++ genDocks addW rest (index + 1) layers'

/-- `layers = defaultdict(lambda: layout_region)`: every z-layer's remaining
region starts as the full viewport. -/
def initLayers (width height : Int) : Int → Region :=
  fun _ => Region.mk 0 0 width height

/-- `DockLayout.generate_map(width, height, offset)`: compute the map from
widgets to `MapRegion`s (as an association list in insertion order).
`add_widget` translates each placed rectangle by the recursion `offset` and
the widget's own `layout_offset`, records the entry, and, when the widget is
a `View`, recursively lays out the widget's own dock list inside the
assigned region, flattening the sub-map into the result.  The extra `fuel`
argument bounds the `View`-nesting recursion depth, which Python leaves
implicit (its recursion terminates because the widget tree is finite); any
`fuel` at least the nesting depth of the tree yields the exact map. -/
def generate_map (fuel : Nat) (docks : List Dock) (width height : Int)
    (offset : Point) : List (Widget × MapRegion) :=
  match fuel with
  | 0 => []
  | fuel' + 1 =>
    let addW : Widget → Region → Int × Nat → List (Widget × MapRegion) :=
      fun w region order =>
        let region := (region.addPoint offset).addPoint w.layout_offset
        (w, MapRegion.mk region order) ::
          (match w.view_docks with
           | some subdocks =>
             generate_map fuel' subdocks region.width region.height region.origin
           | none => [])
    genDocks addW docks 0 (initLayers width height)

/-! ## Derived predicates and concrete instances used by the theorems -/

/-- The region shrank along the vertical axis only: horizontal extent
untouched, vertical interval contained in the old one. -/
def vertShrink (r r' : Region) : Prop :=
  r'.x = r.x ∧ r'.width = r.width ∧ r.y ≤ r'.y ∧
    r'.y + r'.height ≤ r.y + r.height ∧ r'.height ≤ r.height

/-- The region shrank along the horizontal axis only: vertical extent
untouched, horizontal interval contained in the old one. -/
def horizShrink (r r' : Region) : Prop :=
  r'.y = r.y ∧ r'.height = r.height ∧ r.x ≤ r'.x ∧
    r'.x + r'.width ≤ r.x + r.width ∧ r'.width ≤ r.width

/-- A plain map-entry emitter for exercising the placement walk. -/
def exAddW : Widget → Region → List (Widget × MapRegion) :=
  fun w r => [(w, MapRegion.mk r (0, 0))]

/-- A plain map-entry emitter carrying the paint order. -/
def exAddWOrd : Widget → Region → Int × Nat → List (Widget × MapRegion) :=
  fun w r o => [(w, MapRegion.mk r o)]

/-- A top-edge rectangle builder on a 10-wide frame. -/
def exMkRegion : Int → Int → Region := fun cursor size => Region.mk 0 cursor 10 size

/-- A visible widget with fixed size 4. -/
def exWidgetA : Widget := Widget.mk 1 true (some 4) 1 1 (Point.mk 0 0) none

/-- A visible widget whose resolved size is 0. -/
def exWidgetB : Widget := Widget.mk 2 true (some 0) 1 1 (Point.mk 0 0) none

/-- A visible widget with fixed size 4. -/
def exWidgetC : Widget := Widget.mk 3 true (some 4) 1 1 (Point.mk 0 0) none

/-- A top dock of three nodes whose second resolves to size 0. -/
def dockABC : Dock := Dock.mk DockEdge.top [exWidgetA, exWidgetB, exWidgetC] 0

/-- A visible widget with fixed size 40. -/
def exWidgetL : Widget := Widget.mk 4 true (some 40) 1 1 (Point.mk 0 0) none

/-- A left dock of size 40 at z-layer 1. -/
def dockLeft40 : Dock := Dock.mk DockEdge.left [exWidgetL] 1

/-! ## Theorems: focus state machine (C1) -/

/-- Concatenation law for the adjacent-Focus scan. -/
theorem noFFFrom_append (t₁ t₂ : List FocusEv) (p : Bool) :
    noFFFrom p (t₁ ++ t₂) = (noFFFrom p t₁ && noFFFrom (lastIsFocus p t₁) t₂) := by
  induction t₁ generalizing p with
  | nil => simp [noFFFrom, lastIsFocus]
  | cons e rest ih => simp [noFFFrom, lastIsFocus, ih, Bool.and_assoc]

/-- Filtering out reference assignments commutes with concatenation. -/
theorem msgsOf_append (a b : List FocusEv) : msgsOf (a ++ b) = msgsOf a ++ msgsOf b := by
  simp [msgsOf, List.filter_append]

/-- Case analysis of one `set_focus` call: either nothing is posted and the
state is unchanged, or the shapes below occur. -/
theorem set_focus_step (cf : Nat → Bool) (c st : Option Nat) :
    set_focus cf c st = (st, []) ∨
    (∃ f, st = some f ∧
      set_focus cf c st = (none, [FocusEv.setRef none, FocusEv.blur f])) ∨
    (∃ w, st = none ∧
      set_focus cf c st = (some w, [FocusEv.setRef (some w), FocusEv.focus w])) ∨
    (∃ f w, st = some f ∧
      set_focus cf c st =
        (some w, [FocusEv.blur f, FocusEv.setRef (some w), FocusEv.focus w])) ∨
    (∃ f, st = some f ∧ set_focus cf c st = (st, [FocusEv.blur f])) := by
  by_cases h : c = st
  · left
    simp [set_focus, h]
  · cases c with
    | none =>
      cases st with
      | none => exact absurd rfl h
      | some f =>
        right; left
        exact ⟨f, rfl, by simp [set_focus, h]⟩
    | some w =>
      by_cases hcf : cf w
      · cases st with
        | none =>
          right; right; left
          exact ⟨w, rfl, by simp [set_focus, h, hcf]⟩
        | some f =>
          right; right; right; left
          refine ⟨f, w, rfl, ?_⟩
          have hfw : ¬(some f = some w) := fun hh => h hh.symm
          simp [set_focus, h, hcf, hfw]
      · left
        simp [set_focus, h, hcf]

/-- Over any sequence of `set_focus` calls, the posted messages never
contain two adjacent `Focus` posts, relative to a starting scan flag that is
`false` whenever nothing is focused. -/
theorem runSetFocus_noFF (cf : Nat → Bool) :
    ∀ (cs : List (Option Nat)) (st : Option Nat) (p : Bool),
      (st = none → p = false) →
      noFFFrom p (msgsOf (runSetFocus cf cs st).2) = true := by
  intro cs
  induction cs with
  | nil => intro st p _; simp [runSetFocus, msgsOf, noFFFrom]
  | cons c cs ih =>
    intro st p hp
    rcases set_focus_step cf c st with h | ⟨f, hst, h⟩ | ⟨w, hst, h⟩ |
      ⟨f, w, hst, h⟩ | ⟨f, hst, h⟩
    · simpa [runSetFocus, h] using ih st p hp
    · have := ih none false (fun _ => rfl)
      simp [runSetFocus, h, msgsOf_append, noFFFrom_append, msgsOf, noFFFrom,
        lastIsFocus, isPostEv, isFocusEv] at this ⊢
      exact this
    · have := ih (some w) true (fun hh => nomatch hh)
      have hp' : p = false := hp hst
      simp [runSetFocus, h, hp', msgsOf_append, noFFFrom_append, msgsOf, noFFFrom,
        lastIsFocus, isPostEv, isFocusEv] at this ⊢
      exact this
    · have := ih (some w) true (fun hh => nomatch hh)
      simp [runSetFocus, h, msgsOf_append, noFFFrom_append, msgsOf, noFFFrom,
        lastIsFocus, isPostEv, isFocusEv] at this ⊢
      exact this
    · have := ih st false (fun hh => rfl)
      simp [runSetFocus, h, msgsOf_append, noFFFrom_append, msgsOf, noFFFrom,
        lastIsFocus, isPostEv, isFocusEv] at this ⊢
      exact this

/-- C1 (amended): when `w` is focusable and a different node holds focus,
`set_focus(w)` posts Blur to the old holder first, then updates the
`focused` reference to `w`, and then posts Focus to `w`; and over any
sequence of `set_focus` calls, two Focus messages are never posted without
an intervening Blur. -/
theorem set_focus_blur_before_focus :
    (∀ (cf : Nat → Bool) (a b : Nat), b ≠ a → cf b = true →
      set_focus cf (some b) (some a) =
        (some b, [FocusEv.blur a, FocusEv.setRef (some b), FocusEv.focus b])) ∧
    (∀ (cf : Nat → Bool) (cs : List (Option Nat)),
      noFF (msgsOf (runSetFocus cf cs none).2) = true) := by
  constructor
  · intro cf a b hne hcf
    have hne' : ¬a = b := fun hh => hne hh.symm
    simp [set_focus, hne, hcf, hne']
  · intro cf cs
    exact runSetFocus_noFF cf cs none false (fun _ => rfl)

/-- C1 witness: the per-call trace shape at widgets 4 and 5, and the
alternation property over a concrete call sequence. -/
theorem set_focus_blur_before_focus_witness :
    set_focus (fun _ => true) (some 5) (some 4) =
      (some 5, [FocusEv.blur 4, FocusEv.setRef (some 5), FocusEv.focus 5]) ∧
    noFF (msgsOf (runSetFocus (fun _ => true)
      [some 1, none, some 2, some 2] none).2) = true :=
  ⟨set_focus_blur_before_focus.1 (fun _ => true) 4 5 (by decide) rfl,
   set_focus_blur_before_focus.2 (fun _ => true) [some 1, none, some 2, some 2]⟩

/-- C1 counterexample: with widget 1 focused, `set_focus(2)` posts Blur to
1, then assigns `self.focused = 2`, and only then posts Focus to 2: the
reference update occurs strictly before the Focus post, not after it as the
claim states. -/
theorem set_focus_updates_reference_before_focus_post :
    (set_focus (fun _ => true) (some 2) (some 1)).2 =
      [FocusEv.blur 1, FocusEv.setRef (some 2), FocusEv.focus 2] ∧
    List.indexOf (FocusEv.setRef (some 2)) ((set_focus (fun _ => true) (some 2) (some 1)).2) <
      List.indexOf (FocusEv.focus 2) ((set_focus (fun _ => true) (some 2) (some 1)).2) := by
  decide

/-! ## Theorems: pointer-over state machine (C2) -/

/-- C2: `set_mouse_over(w)` with `w` different from the current holder
delivers Leave to the old holder (if any) strictly before Enter to `w` —
the attempted-notification trace is exactly Leave-then-Enter, truncated
after Leave when Leave raises — and the `mouse_over` state is committed to
`w` no matter which notification raises; `set_mouse_over(None)` likewise
clears the state even when the Leave notification raises. -/
theorem set_mouse_over_commit_unconditional :
    (∀ (r : MouseEv → Bool) (w : Nat) (m : Option Nat),
      (set_mouse_over r (some w) m).1 = some w) ∧
    (∀ (r : MouseEv → Bool) (m : Option Nat),
      (set_mouse_over r none m).1 = none) ∧
    (∀ (r : MouseEv → Bool) (w old : Nat), old ≠ w →
      (set_mouse_over r (some w) (some old)).2.1 =
        if r (MouseEv.leave old) = true then [MouseEv.leave old]
        else [MouseEv.leave old, MouseEv.enter w]) ∧
    (∀ (r : MouseEv → Bool) (w : Nat),
      (set_mouse_over r (some w) none).2.1 = [MouseEv.enter w]) ∧
    (∀ (r : MouseEv → Bool) (old : Nat),
      (set_mouse_over r none (some old)).2.1 = [MouseEv.leave old]) := by
  refine ⟨?_, ?_, ?_, ?_, ?_⟩
  · intro r w m
    cases m with
    | none => simp [set_mouse_over]
    | some m =>
      by_cases hmw : m = w
      · subst hmw; simp [set_mouse_over]
      · simp [set_mouse_over, hmw]
        split <;> rfl
  · intro r m
    cases m <;> simp [set_mouse_over]
  · intro r w old hne
    simp [set_mouse_over, hne]
    split <;> simp_all
  · intro r w
    simp [set_mouse_over]
  · intro r old
    simp [set_mouse_over]

/-- C2 witness: widget 2 entered while 1 is under the pointer, with a
raising Leave handler: state still commits; and the trace shapes at a
non-raising oracle. -/
theorem set_mouse_over_commit_unconditional_witness :
    (set_mouse_over (fun _ => true) (some 2) (some 1)).1 = some 2 ∧
    (set_mouse_over (fun _ => true) none (some 1)).1 = none ∧
    (set_mouse_over (fun _ => false) (some 2) (some 1)).2.1 =
      (if (fun _ => false) (MouseEv.leave 1) = true then [MouseEv.leave 1]
       else [MouseEv.leave 1, MouseEv.enter 2]) ∧
    (set_mouse_over (fun _ => false) (some 2) none).2.1 = [MouseEv.enter 2] :=
  ⟨set_mouse_over_commit_unconditional.1 (fun _ => true) 2 (some 1),
   set_mouse_over_commit_unconditional.2.1 (fun _ => true) (some 1),
   set_mouse_over_commit_unconditional.2.2.1 (fun _ => false) 2 1 (by decide),
   set_mouse_over_commit_unconditional.2.2.2.1 (fun _ => false) 2⟩

/-! ## Theorems: key event routing (C3) -/

/-- C3: for a Key event, a key present in the binding table dispatches the
bound action and forwards to no node; an unbound key is forwarded to the
focused node when one exists and, in every case, to the active view. -/
theorem on_event_key_routing :
    (∀ (bindings : List Char → Option Binding) (focused : Option Nat)
        (k : List Char) (b : Binding), bindings k = some b →
      on_event bindings focused (AppEvent.key k) = [RouteEv.dispatchAction b.action]) ∧
    (∀ (bindings : List Char → Option Binding) (f : Nat) (k : List Char),
      bindings k = none →
      on_event bindings (some f) (AppEvent.key k) =
        [RouteEv.toFocused f, RouteEv.toView]) ∧
    (∀ (bindings : List Char → Option Binding) (k : List Char),
      bindings k = none →
      on_event bindings none (AppEvent.key k) = [RouteEv.toView]) := by
  refine ⟨?_, ?_, ?_⟩
  · intro bindings focused k b h
    simp [on_event, h]
  · intro bindings f k h
    simp [on_event, h]
  · intro bindings k h
    simp [on_event, h]

/-- C3 witness: a table binding only "q" routes Key("q") to the action and
Key("x") to the focused node and view. -/
theorem on_event_key_routing_witness :
    on_event (fun k => if k = "q".toList then some (Binding.mk "quit".toList []) else none)
        (some 7) (AppEvent.key "q".toList) =
      [RouteEv.dispatchAction "quit".toList] ∧
    on_event (fun k => if k = "q".toList then some (Binding.mk "quit".toList []) else none)
        (some 7) (AppEvent.key "x".toList) =
      [RouteEv.toFocused 7, RouteEv.toView] ∧
    on_event (fun k => if k = "q".toList then some (Binding.mk "quit".toList []) else none)
        none (AppEvent.key "x".toList) = [RouteEv.toView] :=
  ⟨on_event_key_routing.1 _ (some 7) "q".toList (Binding.mk "quit".toList []) (by decide),
   on_event_key_routing.2.1 _ 7 "x".toList (by decide),
   on_event_key_routing.2.2 _ "x".toList (by decide)⟩

/-! ## Theorems: action dispatch (C6) -/

/-- C6: `action` raises `ActionError` exactly when the parsed target
contains a dot and its namespace (the prefix before the first dot) is not
in the registered set `{"app", "view"}`; and `dispatch_action` on a target
without the `action_<name>` method completes without error and invokes
nothing. -/
theorem action_error_iff_bad_namespace :
    (∀ (hm : ActionTarget → List Char → Bool) (dns : Option ActionTarget)
        (a : List Char),
      action hm dns a = Except.error () ↔
        ('.' ∈ (parse a).1 ∧
          (parse a).1.takeWhile (fun c => c ≠ '.') ∉ action_targets)) ∧
    (∀ (hm : ActionTarget → List Char → Bool) (ns : ActionTarget)
        (n : List Char) (p : List (List Char)),
      hm ns n = false → dispatch_action hm ns n p = []) := by
  constructor
  · intro hm dns a
    by_cases hdot : '.' ∈ (parse a).1
    · by_cases hdest : (parse a).1.takeWhile (fun c => c ≠ '.') ∈ action_targets
      · simp [action, hdot, hdest]
      · simp [action, hdot, hdest]
    · simp [action, hdot]
  · intro hm ns n p h
    simp [dispatch_action, h]

/-- C6 witness: a target object lacking the handler method makes the
dispatch a no-op. -/
theorem action_error_iff_bad_namespace_witness :
    dispatch_action (fun _ _ => false) ActionTarget.app "quit".toList [] = [] :=
  action_error_iff_bad_namespace.2 (fun _ _ => false) ActionTarget.app
    "quit".toList [] rfl

/-! ## Theorems: top-level lifecycle (C7) -/

/-- C7: if entering application mode raises, the main loop is never entered
and no teardown runs; if it succeeds, then after the loop — whether it ends
normally or by a captured exception — the animator is stopped, the view
subtree is closed, and application mode is exited, in that order, and only
after those three steps is a captured exception surfaced. -/
theorem process_messages_lifecycle :
    (∀ lf : Bool, process_messages true lf =
      [LifeEv.registerView, LifeEv.postStartup, LifeEv.enterAppMode,
        LifeEv.logStartError]) ∧
    (∀ lf : Bool,
      LifeEv.runLoop ∉ process_messages true lf ∧
      LifeEv.animatorStop ∉ process_messages true lf ∧
      LifeEv.closeView ∉ process_messages true lf ∧
      LifeEv.exitAppMode ∉ process_messages true lf) ∧
    process_messages false false =
      [LifeEv.registerView, LifeEv.postStartup, LifeEv.enterAppMode,
        LifeEv.animatorStart, LifeEv.runLoop, LifeEv.animatorStop,
        LifeEv.closeView, LifeEv.exitAppMode] ∧
    process_messages false true =
      [LifeEv.registerView, LifeEv.postStartup, LifeEv.enterAppMode,
        LifeEv.animatorStart, LifeEv.runLoop, LifeEv.captureTraceback,
        LifeEv.animatorStop, LifeEv.closeView, LifeEv.exitAppMode,
        LifeEv.printTraceback] := by
  decide

/-! ## Theorems: view stack (C9) -/

/-- C9: starting from the one-element initial stack, any sequence of
`push_view` calls leaves the stack with exactly one element; `push_view v`
on a one-element stack makes the stack `[v]`, so the active view is `v` and
any different previous view is gone from the stack. -/
theorem view_stack_always_singleton :
    (∀ vs : List Nat, (vs.foldl push_view init_view_stack).length = 1) ∧
    (∀ (s : List Nat) (v : Nat), s.length = 1 → push_view s v = [v]) ∧
    (∀ (s : List Nat) (v : Nat), s.length = 1 →
      active_view (push_view s v) = some v) ∧
    (∀ (s : List Nat) (v old : Nat), s.length = 1 → old ≠ v →
      old ∉ push_view s v) := by
  have hset : ∀ (s : List Nat) (v : Nat), s.length = 1 → push_view s v = [v] := by
    intro s v hs
    match s, hs with
    | [a], _ => rfl
  refine ⟨?_, hset, ?_, ?_⟩
  · intro vs
    have : ∀ (s : List Nat), s.length = 1 → (vs.foldl push_view s).length = 1 := by
      induction vs with
      | nil => intro s hs; exact hs
      | cons v vs ih =>
        intro s hs
        have : (push_view s v).length = 1 := by
          rw [hset s v hs]; rfl
        simpa [List.foldl] using ih (push_view s v) this
    exact this init_view_stack rfl
  · intro s v hs
    rw [hset s v hs]; rfl
  · intro s v old hs hne
    rw [hset s v hs]
    simp [hne]

/-- C9 witness: pushing view 3 onto the stack holding view 7. -/
theorem view_stack_always_singleton_witness :
    push_view [7] 3 = [3] ∧ active_view (push_view [7] 3) = some 3 ∧
      7 ∉ push_view [7] 3 :=
  ⟨view_stack_always_singleton.2.1 [7] 3 rfl,
   view_stack_always_singleton.2.2.1 [7] 3 rfl,
   view_stack_always_singleton.2.2.2 [7] 3 7 rfl (by decide)⟩

/-! ## Theorems: key binding registration (C10) -/

/-- Folding binding updates over keys not containing `k` leaves the lookup
of `k` unchanged. -/
theorem foldl_updateBinding_not_mem (b : Binding) :
    ∀ (ks : List (List Char)) (m : List Char → Option Binding) (k : List Char),
      k ∉ ks → ks.foldl (fun m key => updateBinding m key b) m k = m k := by
  intro ks
  induction ks with
  | nil => intro m k _; rfl
  | cons a ks ih =>
    intro m k hk
    have hka : k ≠ a := fun hh => hk (hh ▸ List.mem_cons_self a ks)
    have hks : k ∉ ks := fun hh => hk (List.mem_cons_of_mem a hh)
    simp only [List.foldl]
    rw [ih (updateBinding m a b) k hks]
    simp [updateBinding, hka]

/-- Folding binding updates over keys containing `k` makes `k` look up the
inserted binding. -/
theorem foldl_updateBinding_mem (b : Binding) :
    ∀ (ks : List (List Char)) (m : List Char → Option Binding) (k : List Char),
      k ∈ ks → ks.foldl (fun m key => updateBinding m key b) m k = some b := by
  intro ks
  induction ks with
  | nil => intro m k hk; exact absurd hk (List.not_mem_nil k)
  | cons a ks ih =>
    intro m k hk
    by_cases hks : k ∈ ks
    · simpa [List.foldl] using ih (updateBinding m a b) k hks
    · have hka : k = a := by
        rcases List.mem_cons.1 hk with h | h
        · exact h
        · exact absurd h hks
      simp only [List.foldl]
      rw [foldl_updateBinding_not_mem b ks (updateBinding m a b) k hks]
      simp [updateBinding, hka]

/-- A string without a comma splits into itself alone. -/
theorem splitComma_no_comma : ∀ s : List Char, ',' ∉ s → splitComma s = [s] := by
  intro s
  induction s with
  | nil => intro _; rfl
  | cons c rest ih =>
    intro h
    have hc : c ≠ ',' := fun hh => h (hh ▸ List.mem_cons_self c rest)
    have hrest : ',' ∉ rest := fun hh => h (List.mem_cons_of_mem c hh)
    simp [splitComma, hc, ih hrest]

/-- C10: `bind(keys, action, description)` splits `keys` on commas, strips
each piece, and maps every resulting key — and no other key — to the same
binding, overwriting any prior binding for those keys (last write wins);
with no comma present the key list is the single stripped string. -/
theorem bind_splits_and_overwrites :
    (∀ (m : List Char → Option Binding) (keys a d k : List Char),
      k ∈ (splitComma keys).map trimChars →
      bind m keys a d k = some (Binding.mk a d)) ∧
    (∀ (m : List Char → Option Binding) (keys a d k : List Char),
      k ∉ (splitComma keys).map trimChars →
      bind m keys a d k = m k) ∧
    (∀ keys : List Char, ',' ∉ keys →
      (splitComma keys).map trimChars = [trimChars keys]) := by
  refine ⟨?_, ?_, ?_⟩
  · intro m keys a d k hk
    exact foldl_updateBinding_mem (Binding.mk a d) _ m k hk
  · intro m keys a d k hk
    exact foldl_updateBinding_not_mem (Binding.mk a d) _ m k hk
  · intro keys h
    rw [splitComma_no_comma keys h]
    rfl

/-- C10 witness: binding "q, ctrl+c" maps both stripped keys to the same
binding, leaves "x" untouched, and a comma-free "q" yields one entry. -/
theorem bind_splits_and_overwrites_witness :
    bind (fun _ => none) "q, ctrl+c".toList "quit".toList [] "ctrl+c".toList =
      some (Binding.mk "quit".toList []) ∧
    bind (fun _ => none) "q, ctrl+c".toList "quit".toList [] "x".toList =
      (fun (_ : List Char) => (none : Option Binding)) "x".toList ∧
    (splitComma "q".toList).map trimChars = [trimChars "q".toList] :=
  ⟨bind_splits_and_overwrites.1 (fun _ => none) "q, ctrl+c".toList "quit".toList
      [] "ctrl+c".toList (by decide),
   bind_splits_and_overwrites.2.1 (fun _ => none) "q, ctrl+c".toList
      "quit".toList [] "x".toList (by decide),
   bind_splits_and_overwrites.2.2 "q".toList (by decide)⟩

/-! ## Theorems: layout engine -/

/-- C8: `generate_map` is deterministic — identical dock lists, viewport
dimensions and offset (at the same recursion bound) yield identical maps.
Freedom from input mutation is inherent to the embedding: the source
function only builds fresh local structures. -/
theorem generate_map_deterministic :
    ∀ (fuel : Nat) (d₁ d₂ : List Dock) (w₁ w₂ h₁ h₂ : Int) (o₁ o₂ : Point),
      d₁ = d₂ → w₁ = w₂ → h₁ = h₂ → o₁ = o₂ →
      generate_map fuel d₁ w₁ h₁ o₁ = generate_map fuel d₂ w₂ h₂ o₂ := by
  intro fuel d₁ d₂ w₁ w₂ h₁ h₂ o₁ o₂ hd hw hh ho
  rw [hd, hw, hh, ho]

/-- C8 witness: two identical calls on the three-widget top dock agree. -/
theorem generate_map_deterministic_witness :
    generate_map 2 [dockABC] 10 10 (Point.mk 0 0) =
      generate_map 2 [dockABC] 10 10 (Point.mk 0 0) :=
  generate_map_deterministic 2 [dockABC] [dockABC] 10 10 10 10
    (Point.mk 0 0) (Point.mk 0 0) rfl rfl rfl rfl

/-- C5: in the placement walk of a dock, a visible widget whose size clamps
to zero against the remaining capacity stops the walk — that widget and
every later widget of the dock receive no region, even if capacity remains;
concretely, the three-node top dock whose second node resolves to size 0
places only its first node in the full `generate_map` output. -/
theorem dock_zero_size_truncates :
    (∀ (addW : Widget → Region → List (Widget × MapRegion))
        (mkRegion : Int → Int → Region) (w : Widget) (ws : List Widget)
        (s : Int) (sizes : List Int) (remaining cursor : Int),
      w.visible = true → min remaining s = 0 →
      genWidgets addW mkRegion (w :: ws) (s :: sizes) remaining cursor = ([], 0)) ∧
    generate_map 1 [dockABC] 10 10 (Point.mk 0 0) =
      [(exWidgetA, MapRegion.mk (Region.mk 0 0 10 4) (0, 0))] := by
  constructor
  · intro addW mkRegion w ws s sizes remaining cursor hv hz
    simp [genWidgets, hv, hz]
  · rfl

/-- C5 witness: the walk for the tail of the three-node dock stops at the
zero-size second widget with capacity 6 still remaining. -/
theorem dock_zero_size_truncates_witness :
    genWidgets exAddW exMkRegion [exWidgetB, exWidgetC] [0, 4] 6 4 = ([], 0) :=
  dock_zero_size_truncates.1 exAddW exMkRegion exWidgetB [exWidgetC] 0 [4] 6 4
    rfl (by decide)

/-- The placement walk consumes a nonnegative total bounded by its initial
remaining capacity, whenever all resolved sizes are nonnegative. -/
theorem genWidgets_total_bounds
    (addW : Widget → Region → List (Widget × MapRegion))
    (mkRegion : Int → Int → Region) :
    ∀ (ws : List Widget) (sizes : List Int) (remaining cursor : Int),
      0 ≤ remaining → (∀ s ∈ sizes, 0 ≤ s) →
      0 ≤ (genWidgets addW mkRegion ws sizes remaining cursor).2 ∧
        (genWidgets addW mkRegion ws sizes remaining cursor).2 ≤ remaining := by
  intro ws
  induction ws with
  | nil =>
    intro sizes remaining cursor h0 _
    simp [genWidgets]
    exact h0
  | cons w ws ih =>
    intro sizes remaining cursor h0 hs
    cases sizes with
    | nil =>
      simp [genWidgets]
      exact h0
    | cons s sizes =>
      have hs0 : 0 ≤ s := hs s (List.mem_cons_self s sizes)
      have hs' : ∀ x ∈ sizes, 0 ≤ x := fun x hx => hs x (List.mem_cons_of_mem s hx)
      cases hv : w.visible with
      | false =>
        simpa [genWidgets, hv] using ih sizes remaining cursor h0 hs'
      | true =>
        by_cases hz : min remaining s = 0
        · simp [genWidgets, hv, hz]
          exact h0
        · have hminle : min remaining s ≤ remaining := min_le_left _ _
          have hmin0 : 0 ≤ min remaining s := le_min h0 hs0
          have hmax : max 0 (remaining - min remaining s) =
              remaining - min remaining s :=
            max_eq_right (sub_nonneg.mpr hminle)
          have hrec := ih sizes (max 0 (remaining - min remaining s))
            (cursor + min remaining s) (le_max_left 0 _) hs'
          have hgoal : genWidgets addW mkRegion (w :: ws) (s :: sizes)
              remaining cursor =
              (addW w (mkRegion cursor (min remaining s)) ++
                (genWidgets addW mkRegion ws sizes
                  (max 0 (remaining - min remaining s))
                  (cursor + min remaining s)).1,
               min remaining s +
                (genWidgets addW mkRegion ws sizes
                  (max 0 (remaining - min remaining s))
                  (cursor + min remaining s)).2) := by
            simp [genWidgets, hv, hz]
          rw [hgoal]
          constructor
          · omega
          · omega

/-- Specialisation: sizes coming out of `ratio_resolve` (natural numbers
cast to `Int`) are nonnegative, so the consumed total lies between 0 and
the initial capacity. -/
theorem genWidgets_ofNat_total
    (addW : Widget → Region → List (Widget × MapRegion))
    (mkRegion : Int → Int → Region) (ws : List Widget) (ns : List Nat)
    (remaining cursor : Int) (h0 : 0 ≤ remaining) :
    0 ≤ (genWidgets addW mkRegion ws (ns.map Int.ofNat) remaining cursor).2 ∧
      (genWidgets addW mkRegion ws (ns.map Int.ofNat) remaining cursor).2 ≤
        remaining := by
  refine genWidgets_total_bounds addW mkRegion ws (ns.map Int.ofNat)
    remaining cursor h0 ?_
  intro s hsm
  obtain ⟨n, _, rfl⟩ := List.mem_map.1 hsm
  exact Int.ofNat_nonneg n

/-- C4: every z-layer's remaining region starts as the full viewport;
processing a dock leaves every other z-layer's remaining region unchanged;
and the dock's own layer shrinks on the docked axis only — the off-axis
extent is untouched and the new axis interval is contained in the old. -/
theorem dock_shrinks_own_layer_only :
    (∀ width height z : Int,
      initLayers width height z = Region.mk 0 0 width height) ∧
    (∀ (addW : Widget → Region → Int × Nat → List (Widget × MapRegion))
        (dock : Dock) (index : Nat) (layers : Int → Region) (z' : Int),
      z' ≠ dock.z → (genDocksStep addW dock index layers).2 z' = layers z') ∧
    (∀ (addW : Widget → Region → Int × Nat → List (Widget × MapRegion))
        (dock : Dock) (region : Region) (index : Nat),
      0 ≤ region.width → 0 ≤ region.height →
      ((dock.edge = DockEdge.top ∨ dock.edge = DockEdge.bottom) →
        vertShrink region (dockStep addW dock region index).2) ∧
      ((dock.edge = DockEdge.left ∨ dock.edge = DockEdge.right) →
        horizShrink region (dockStep addW dock region index).2)) := by
  refine ⟨fun _ _ _ => rfl, ?_, ?_⟩
  · intro addW dock index layers z' hz
    simp [genDocksStep, updateLayers, hz]
  · intro addW dock region index hw hh
    obtain ⟨e, ws, z⟩ := dock
    by_cases hne : region.nonEmpty = false
    · constructor <;> intro _ <;>
        simp [dockStep, hne, vertShrink, horizShrink]
    · constructor
      · rintro (he | he) <;> simp only [Dock.edge] at he <;> subst he
        · have hshape : ∃ T : Int, (0 ≤ T ∧ T ≤ region.height) ∧
              (dockStep addW (Dock.mk DockEdge.top ws z) region index).2 =
                Region.mk region.x (region.y + T) region.width
                  (region.height - T) := by
            simp only [dockStep, Dock.edge, Dock.widgets, Dock.z, if_neg hne]
            exact ⟨_, genWidgets_ofNat_total _ _ _ _ _ _ hh, rfl⟩
          obtain ⟨T, ⟨hT0, hTle⟩, heq⟩ := hshape
          rw [heq]
          refine ⟨rfl, rfl, ?_, ?_, ?_⟩
          · show region.y ≤ region.y + T
            omega
          · show region.y + T + (region.height - T) ≤ region.y + region.height
            omega
          · show region.height - T ≤ region.height
            omega
        · have hshape : ∃ T : Int, (0 ≤ T ∧ T ≤ region.height) ∧
              (dockStep addW (Dock.mk DockEdge.bottom ws z) region index).2 =
                Region.mk region.x region.y region.width (region.height - T) := by
            simp only [dockStep, Dock.edge, Dock.widgets, Dock.z, if_neg hne]
            exact ⟨_, genWidgets_ofNat_total _ _ _ _ _ _ hh, rfl⟩
          obtain ⟨T, ⟨hT0, hTle⟩, heq⟩ := hshape
          rw [heq]
          refine ⟨rfl, rfl, ?_, ?_, ?_⟩
          · show region.y ≤ region.y
            omega
          · show region.y + (region.height - T) ≤ region.y + region.height
            omega
          · show region.height - T ≤ region.height
            omega
      · rintro (he | he) <;> simp only [Dock.edge] at he <;> subst he
        · have hshape : ∃ T : Int, (0 ≤ T ∧ T ≤ region.width) ∧
              (dockStep addW (Dock.mk DockEdge.left ws z) region index).2 =
                Region.mk (region.x + T) region.y (region.width - T)
                  region.height := by
            simp only [dockStep, Dock.edge, Dock.widgets, Dock.z, if_neg hne]
            exact ⟨_, genWidgets_ofNat_total _ _ _ _ _ _ hw, rfl⟩
          obtain ⟨T, ⟨hT0, hTle⟩, heq⟩ := hshape
          rw [heq]
          refine ⟨rfl, rfl, ?_, ?_, ?_⟩
          · show region.x ≤ region.x + T
            omega
          · show region.x + T + (region.width - T) ≤ region.x + region.width
            omega
          · show region.width - T ≤ region.width
            omega
        · have hshape : ∃ T : Int, (0 ≤ T ∧ T ≤ region.width) ∧
              (dockStep addW (Dock.mk DockEdge.right ws z) region index).2 =
                Region.mk region.x region.y (region.width - T) region.height := by
            simp only [dockStep, Dock.edge, Dock.widgets, Dock.z, if_neg hne]
            exact ⟨_, genWidgets_ofNat_total _ _ _ _ _ _ hw, rfl⟩
          obtain ⟨T, ⟨hT0, hTle⟩, heq⟩ := hshape
          rw [heq]
          refine ⟨rfl, rfl, ?_, ?_, ?_⟩
          · show region.x ≤ region.x
            omega
          · show region.x + (region.width - T) ≤ region.x + region.width
            omega
          · show region.width - T ≤ region.width
            omega

/-- C4 witness: the left dock of size 40 at z-layer 1 leaves layer 0's
remaining region untouched and shrinks its own layer's region on the
horizontal axis only. -/
theorem dock_shrinks_own_layer_only_witness :
    initLayers 100 50 7 = Region.mk 0 0 100 50 ∧
    (genDocksStep exAddWOrd dockLeft40 0 (initLayers 100 50)).2 0 =
      initLayers 100 50 0 ∧
    horizShrink (Region.mk 0 0 100 50)
      (dockStep exAddWOrd dockLeft40 (Region.mk 0 0 100 50) 0).2 :=
  ⟨dock_shrinks_own_layer_only.1 100 50 7,
   dock_shrinks_own_layer_only.2.1 exAddWOrd dockLeft40 0 (initLayers 100 50) 0
     (by decide),
   (dock_shrinks_own_layer_only.2.2 exAddWOrd dockLeft40 (Region.mk 0 0 100 50) 0
     (by decide) (by decide)).2 (Or.inl rfl)⟩
